import Mathlib

/-
Verification of the playback-synchronized analysis pipeline of the
soundscope audio inspection engine.

The definitions below are shallow embeddings of the corresponding Rust
functions: `f32`/`f64` sample values are modelled as exact rationals or
reals, `usize` arithmetic is `Nat` with explicit wrapping modulo `2 ^ 64`
where the source can overflow, and fallible operations return
`Option`/`Except`.
-/

set_option maxHeartbeats 1000000

namespace Soundscope

/-- The modulus of 64-bit `usize` arithmetic; release builds of the program
wrap on under/overflow. -/
def USIZE : Nat := 2 ^ 64

/-- Rust `usize::next_multiple_of`: the smallest multiple of `k` that is
greater than or equal to `n` (for `k > 0`). -/
def nextMultipleOf (n k : Nat) : Nat := k * ((n + k - 1) / k)

/-- The new playback position computed by `AudioFile::try_seek` in
`audio_player.rs`: `curr_channel = playback_position % channels`, the target
sample index is clamped to `samples.len()`, rounded up to the next multiple
of the channel count, and `curr_channel` is subtracted with wrapping `usize`
semantics. -/
def trySeekNewPos (channels samplesLen playbackPosition target : Nat) : Nat :=
  let currChannel := playbackPosition % channels
  let newPos := min target samplesLen
  let newPos := nextMultipleOf newPos channels
  (newPos + (USIZE - currChannel)) % USIZE

/-- The playback-relevant state of an `AudioFile` in `audio_player.rs`: the
interleaved samples (exact rationals in place of `f32`), the channel count of
the file, and `playback_position`, an index into the interleaved sample
vector. -/
structure AudioFileSt where
  samples : List ℚ
  channels : Nat
  pos : Nat
deriving DecidableEq

/-- `<AudioFile as Iterator>::next`: returns the sample under the cursor (or
`None` past the end), sends the cursor on the position channel whenever it is
a multiple of 4096, and increments the cursor unconditionally. The emitted
messages are returned as a list. -/
def AudioFile.next (s : AudioFileSt) : Option ℚ × List Nat × AudioFileSt :=
  let pos := s.pos
  let res := if h : pos < s.samples.length then some (s.samples.get ⟨pos, h⟩) else none
  let sent := if pos % 4096 = 0 then [pos] else []
  (res, sent, { s with pos := pos + 1 })

/-- Iterates `AudioFile::next` a given number of times, accumulating every
position message sent on the way. -/
def AudioFile.runNext : AudioFileSt → Nat → AudioFileSt × List Nat
  | s, 0 => (s, [])
  | s, n + 1 =>
    let step := AudioFile.next s
    let rest := AudioFile.runNext step.2.2 n
    (rest.1, step.2.1 ++ rest.2)

/-- `AudioFile::try_seek`: sets the cursor to `trySeekNewPos` and sends the
new position on the position channel unconditionally. -/
def AudioFile.try_seek (s : AudioFileSt) (target : Nat) : List Nat × AudioFileSt :=
  let newPos := trySeekNewPos s.channels s.samples.length s.pos target
  ([newPos], { s with pos := newPos })

/-- `samples.iter().step_by(2)`: the elements at even indices. -/
def deinterleaveL : List ℚ → List ℚ
  | [] => []
  | [a] => [a]
  | a :: _ :: rest => a :: deinterleaveL rest

/-- `samples.iter().skip(1).step_by(2)`: the elements at odd indices. -/
def deinterleaveR : List ℚ → List ℚ
  | [] => []
  | [_] => []
  | _ :: b :: rest => b :: deinterleaveR rest

/-- `get_mid_and_side_samples` in `audio_player.rs`: splits the interleaved
vector into even- and odd-indexed subsequences and zips them into pairwise
averages and half-differences. The function is applied to every decoded file
regardless of its channel count. -/
def get_mid_and_side_samples (samples : List ℚ) : List ℚ × List ℚ :=
  let leftSamples := deinterleaveL samples
  let rightSamples := deinterleaveR samples
  (List.zipWith (fun l r => (l + r) / 2) leftSamples rightSamples,
   List.zipWith (fun l r => (l - r) / 2) leftSamples rightSamples)

/-- Outcome of `decoder.decode(&packet)` for one packet in
`AudioFile::decode_file`. -/
inductive DecodeOutcome where
  | decoded (xs : List ℚ)
  | decodeError
  | codecError
deriving DecidableEq

/-- Outcome of one `format.next_packet()` call in `AudioFile::decode_file`:
a packet (tagged with whether it belongs to the selected track) or an error
from the format reader. -/
inductive DecodeStep where
  | packet (onTrack : Bool) (outcome : DecodeOutcome)
  | ioError
  | formatError
deriving DecidableEq

/-- The decode loop of `AudioFile::decode_file`: `Error::IoError` from the
format reader ends the loop successfully with the samples accumulated so far;
any other format-reader error aborts; packets of other tracks are skipped;
`Error::DecodeError` from the decoder is ignored and decoding continues; any
other decoder error aborts. -/
def decodeLoop : List ℚ → List DecodeStep → Except Unit (List ℚ)
  | acc, [] => Except.ok acc
  | acc, DecodeStep.ioError :: _ => Except.ok acc
  | _, DecodeStep.formatError :: _ => Except.error ()
  | acc, DecodeStep.packet false _ :: rest => decodeLoop acc rest
  | acc, DecodeStep.packet true (DecodeOutcome.decoded xs) :: rest => decodeLoop (acc ++ xs) rest
  | acc, DecodeStep.packet true DecodeOutcome.decodeError :: rest => decodeLoop acc rest
  | _, DecodeStep.packet true DecodeOutcome.codecError :: _ => Except.error ()

/-- Whether a decode step is an on-track frame decode error, the one kind of
mid-decode error that `decode_file` skips. -/
def isSkippedFrameError : DecodeStep → Bool
  | DecodeStep.packet true DecodeOutcome.decodeError => true
  | _ => false

/-- The player state touched by the `PlayerCommand::SelectFile` handler: the
currently loaded audio file and the contents of the output sink. -/
structure PlayerSt where
  audioFile : AudioFileSt
  sinkQueue : List AudioFileSt
deriving DecidableEq

/-- The `PlayerCommand::SelectFile` handler in `AudioPlayer::run`: on decode
failure it sends an error message and leaves the loaded file and the sink
untouched; on success it replaces the loaded file, stops and clears the sink,
resets the cursor to 0, re-appends the new file and sends position 0. The
returned `Bool` records whether an error message was sent and the list holds
the positions sent. -/
def selectFileStep (decodeRes : Except Unit AudioFileSt) (st : PlayerSt) :
    PlayerSt × Bool × List Nat :=
  match decodeRes with
  | Except.error _ => (st, true, [])
  | Except.ok af =>
    let st := { st with audioFile := af }
    let af0 := { st.audioFile with pos := 0 }
    ({ audioFile := af0, sinkQueue := [af0] }, false, [0])

/-- Rust `Duration` subtraction: it panics (modelled as `none`) when the
subtrahend exceeds the minuend, in debug and release builds alike. -/
def checkedDurationSub (a b : Nat) : Option Nat := if b ≤ a then some (a - b) else none

/-- The `PlayerCommand::MoveLeft` branch of `AudioPlayer::run`, in
milliseconds: with an empty sink it computes `duration - 5 s` with panicking
`Duration` subtraction before re-appending and seeking; otherwise it seeks to
`sink_pos.saturating_sub(5 s)`. The result is the seek target handed to
`sink.try_seek`, or `none` when the handler panics. -/
def moveLeftHandler (sinkEmpty : Bool) (durationMs sinkPosMs : Nat) : Option Nat :=
  if sinkEmpty then checkedDurationSub durationMs 5000
  else some (sinkPosMs - 5000)

/-- The per-point chart coordinate of `Analyzer::transform_to_log_scale` in
`analyzer.rs`, over the reals: the frequency is normalized between
`log10 20` and `log10 20000` and scaled to the chart width 100. -/
noncomputable def chartX (freq : ℝ) : ℝ :=
  let minFreqLog := Real.logb 10 20
  let maxFreqLog := Real.logb 10 20000
  let logRange := maxFreqLog - minFreqLog
  let chartWidth : ℝ := 100
  (Real.logb 10 freq - minFreqLog) / logRange * chartWidth

/-- `Analyzer::transform_to_log_scale`: maps every `(freq, value)` point to
`(chartX freq, value)`. -/
noncomputable def transform_to_log_scale (fftData : List (ℝ × ℝ)) : List (ℝ × ℝ) :=
  fftData.map (fun p => (chartX p.1, p.2))

/-- The loudness-feed slice of `App::analyze_audio_file_samples` in `tui.rs`:
the received position is divided by the channel count and re-multiplied,
the left bound is `pos.saturating_sub(16384)`, and the interleaved samples in
`[left_bound, pos)` are fed to the meter when `left_bound` is nonzero and the
slice is within the current sample vector. Returns the fed half-open span,
or `none` when nothing is fed. -/
def lufsFeedSpan (pos channels samplesLen : Nat) : Option (Nat × Nat) :=
  let posFrames := pos / channels
  let pos2 := posFrames * channels
  let lufsLeftBound := pos2 - 16384
  if lufsLeftBound ≠ 0 then
    if pos2 ≤ samplesLen ∧ lufsLeftBound < samplesLen then some (lufsLeftBound, pos2)
    else none
  else none

/-- All slices of the mid, side and interleaved sample vectors taken by
`App::analyze_audio_file_samples` for a received position message, as
`(start, stop, length)` triples: the FFT slices of the mid and side vectors
guarded by their bounds checks, then the loudness-feed slice. When a bounds
check fails the code substitutes an empty slice, so no triple is recorded. -/
def analyzeSlices (pos channels midLen sideLen samplesLen : Nat) :
    List (Nat × Nat × Nat) :=
  let posFrames := pos / channels
  let fftLeftBound := posFrames - 16384
  let fftSlices :=
    if fftLeftBound ≠ 0 then
      (if posFrames ≤ midLen ∧ fftLeftBound < midLen then
        [(fftLeftBound, posFrames, midLen)] else [])
        ++ (if posFrames ≤ sideLen ∧ fftLeftBound < sideLen then
          [(fftLeftBound, posFrames, sideLen)] else [])
    else []
  let lufsSlices :=
    match lufsFeedSpan pos channels samplesLen with
    | some (a, b) => [(a, b, samplesLen)]
    | none => []
  fftSlices ++ lufsSlices

/-- Modelled from the spec: the capture ring buffer (the `AllocRingBuffer`
of the external `ringbuffer` crate, absent from this repository) is a
fixed-capacity circular store whose producer never blocks; pushing into a
full buffer overwrites the oldest element. Pushing keeps the last `capacity`
elements of the extended contents. -/
def ringPush (capacity : Nat) (data : List ℚ) (x : ℚ) : List ℚ :=
  let d := data ++ [x]
  d.drop (d.length - capacity)

/-- Modelled from the spec: a capture ring buffer with its fixed capacity
(`sample_rate * 30` at construction in `App::select_device`) and its current
contents, oldest first. -/
structure CaptureRing where
  capacity : Nat
  data : List ℚ
deriving DecidableEq

/-- `extend` on the ring buffer: pushes every incoming sample in order. -/
def CaptureRing.extend (b : CaptureRing) (xs : List ℚ) : CaptureRing :=
  { b with data := xs.foldl (ringPush b.capacity) b.data }

/-- The snapshot copy `to_vec()` taken by the render thread. -/
def CaptureRing.to_vec (b : CaptureRing) : List ℚ := b.data

/-- `data.chunks_exact(2).map(|vals| (vals[0] + vals[1]) / 2.0)`: stereo
input downmixed to mono, any trailing odd sample dropped. -/
def downmixStereo : List ℚ → List ℚ
  | a :: b :: rest => (a + b) / 2 :: downmixStereo rest
  | _ => []

/-- The input-stream callback built by `build_input_stream` in
`audio_capture.rs`: mono input is enqueued as is, multichannel input is
downmixed to mono first. -/
def inputStreamCallback (isMono : Bool) (buf : CaptureRing) (data : List ℚ) :
    CaptureRing :=
  if isMono then buf.extend data else buf.extend (downmixStereo data)

/-- The position messages emitted while iterating `AudioFile::next` are
exactly the cursor values that are multiples of 4096, in cursor order. -/
lemma runNext_emits (n : Nat) (s : AudioFileSt) :
    (AudioFile.runNext s n).2 = (List.range' s.pos n).filter (fun p => p % 4096 == 0) := by
  induction n generalizing s with
  | zero => simp [AudioFile.runNext]
  | succ n ih =>
    have hr : List.range' s.pos (n + 1) = s.pos :: List.range' (s.pos + 1) n :=
      List.range'_succ s.pos n 1 ▸ rfl
    by_cases h : s.pos % 4096 = 0 <;>
      simp [AudioFile.runNext, AudioFile.next, ih, hr, List.filter_cons, h]

/-- C1: the claim that `try_seek` preserves the cursor residue modulo the
channel count for every channel count fails: for a 3-channel file at cursor 1
with 12 samples, seeking to target sample 6 yields cursor 5, and
5 mod 3 = 2 differs from 1 mod 3 = 1. -/
theorem c1_seek_parity_counterexample :
    trySeekNewPos 3 12 1 6 = 5 ∧ 5 % 3 ≠ 1 % 3 := by decide

/-- C1 (amended): for the channel counts the player actually targets, mono
and stereo, `try_seek` preserves the cursor residue modulo the channel count;
and whenever the subtraction of the current channel offset does not
underflow, the new cursor stays within the sample vector length rounded up to
a channel multiple. -/
theorem c1_seek_parity_amended (channels samplesLen playbackPosition target : Nat)
    (hC : channels = 1 ∨ channels = 2) (hLen : samplesLen < USIZE) :
    trySeekNewPos channels samplesLen playbackPosition target % channels
      = playbackPosition % channels ∧
    (playbackPosition % channels ≤ nextMultipleOf (min target samplesLen) channels →
      trySeekNewPos channels samplesLen playbackPosition target
        ≤ nextMultipleOf samplesLen channels) := by
  rcases hC with h | h <;> subst h <;>
    simp only [trySeekNewPos, nextMultipleOf, USIZE] at * <;>
    constructor <;> omega

/-- C1 witness: a stereo seek from cursor 5 to target sample 10 in a
20-sample file keeps the cursor odd. -/
theorem c1_seek_parity_witness :
    (2 = 1 ∨ 2 = 2) ∧ 20 < USIZE ∧
    (trySeekNewPos 2 20 5 10 % 2 = 5 % 2 ∧
      (5 % 2 ≤ nextMultipleOf (min 10 20) 2 →
        trySeekNewPos 2 20 5 10 ≤ nextMultipleOf 20 2)) :=
  ⟨Or.inr rfl, by decide, c1_seek_parity_amended 2 20 5 10 (Or.inr rfl) (by decide)⟩

/-- C2: the claim that `next` emits at multiples of a block of 4096 frames
fails for a stereo file: at cursor 4096 (an interleaved sample index, i.e.
frame 2048) the iterator emits, even though 4096 is not a multiple of
4096 frames = 8192 samples. -/
theorem c2_position_reporting_counterexample :
    (AudioFile.next ⟨[], 2, 4096⟩).2.1 = [4096] ∧ 4096 % (4096 * 2) ≠ 0 := by decide

/-- C2 (amended): during playback the source emits the cursor exactly when
it crosses a multiple of 4096 interleaved samples (for a stereo file, every
2048 frames), and `try_seek` emits the new position unconditionally after
every seek, independently of any play or pause state. -/
theorem c2_position_reporting_amended (s : AudioFileSt) (n target : Nat) :
    (AudioFile.runNext s n).2
      = (List.range' s.pos n).filter (fun p => p % 4096 == 0) ∧
    (AudioFile.try_seek s target).1
      = [trySeekNewPos s.channels s.samples.length s.pos target] :=
  ⟨runNext_emits n s, rfl⟩

/-- C8: the `MoveLeft` handler violates the no-panic policy: with an empty
sink and a loaded file of 3000 ms, it computes `duration - 5 s` with
panicking `Duration` subtraction (modelled as `none`), while a 10000 ms file
seeks to 5000 ms without panic. -/
theorem c8_move_left_short_file_panics :
    moveLeftHandler true 3000 0 = none ∧ moveLeftHandler true 10000 0 = some 5000 := by
  decide

/-- C10: once the cursor has reached or passed the end of the samples,
`next` returns `none`, still increments the cursor, and still sends the
cursor on the position channel whenever it is a multiple of 4096 — so
published positions can exceed the sample count without any file swap. -/
theorem c10_cursor_past_end (s : AudioFileSt) (h : s.samples.length ≤ s.pos) :
    (AudioFile.next s).1 = none ∧
    (AudioFile.next s).2.2.pos = s.pos + 1 ∧
    (s.pos % 4096 = 0 → (AudioFile.next s).2.1 = [s.pos]) := by
  refine ⟨?_, rfl, ?_⟩
  · simp only [AudioFile.next]
    rw [dif_neg (by omega)]
  · intro hm
    simp [AudioFile.next, hm]

/-- C10 witness: an exhausted source (no samples, cursor 8192) returns
`none`, steps to 8193, and emits 8192. -/
theorem c10_cursor_past_end_witness :
    (([] : List ℚ).length ≤ 8192) ∧
    ((AudioFile.next ⟨[], 2, 8192⟩).1 = none ∧
      (AudioFile.next ⟨[], 2, 8192⟩).2.2.pos = 8192 + 1 ∧
      (8192 % 4096 = 0 → (AudioFile.next ⟨[], 2, 8192⟩).2.1 = [8192])) :=
  ⟨by decide, c10_cursor_past_end ⟨[], 2, 8192⟩ (by decide)⟩

/-- The even-index subsequence of a list has half its length, rounded up. -/
lemma deinterleaveL_length (samples : List ℚ) :
    (deinterleaveL samples).length = (samples.length + 1) / 2 := by
  induction samples using deinterleaveL.induct with
  | case1 => simp [deinterleaveL]
  | case2 a => simp [deinterleaveL]
  | case3 a b rest ih => simp [deinterleaveL, ih]; omega

/-- The odd-index subsequence of a list has half its length, rounded down. -/
lemma deinterleaveR_length (samples : List ℚ) :
    (deinterleaveR samples).length = samples.length / 2 := by
  induction samples using deinterleaveR.induct with
  | case1 => simp [deinterleaveR]
  | case2 a => simp [deinterleaveR]
  | case3 a b rest ih => simp [deinterleaveR, ih]; omega

/-- Element `i` of the even-index subsequence is element `2 * i` of the
original list. -/
lemma deinterleaveL_getElem (samples : List ℚ) (i : Nat) :
    (deinterleaveL samples)[i]? = samples[2 * i]? := by
  induction samples using deinterleaveL.induct generalizing i with
  | case1 => simp [deinterleaveL]
  | case2 a => cases i with
    | zero => simp [deinterleaveL]
    | succ j => simp [deinterleaveL, List.getElem?_cons]
  | case3 a b rest ih =>
    cases i with
    | zero => simp [deinterleaveL]
    | succ j =>
      have h2 : 2 * (j + 1) = 2 * j + 1 + 1 := by ring
      simp [deinterleaveL, h2, List.getElem?_cons_succ, ih]

/-- Element `i` of the odd-index subsequence is element `2 * i + 1` of the
original list. -/
lemma deinterleaveR_getElem (samples : List ℚ) (i : Nat) :
    (deinterleaveR samples)[i]? = samples[2 * i + 1]? := by
  induction samples using deinterleaveR.induct generalizing i with
  | case1 => simp [deinterleaveR]
  | case2 a => cases i with
    | zero => simp [deinterleaveR]
    | succ j => simp [deinterleaveR, List.getElem?_cons]
  | case3 a b rest ih =>
    cases i with
    | zero => simp [deinterleaveR]
    | succ j =>
      have h2 : 2 * (j + 1) + 1 = 2 * j + 1 + 1 + 1 := by ring
      simp [deinterleaveR, h2, List.getElem?_cons_succ, ih]

/-- C3: the claim that mid/side degenerate to the single channel for
non-stereo sources fails: for a mono file with the single sample `[1]`,
the code produces an empty mid vector, whose length differs from
`samples.len() / channels = 1`, and which is not the single channel. -/
theorem c3_mid_side_counterexample :
    (get_mid_and_side_samples [1]).1.length ≠ ([1] : List ℚ).length / 1 ∧
    (get_mid_and_side_samples [1]).1 ≠ [1] := by decide

/-- C3 (amended): `get_mid_and_side_samples` applies the stereo even/odd
pairing to every decoded file regardless of channel count, so
`mid.len = side.len = samples.len / 2` (which equals
`samples.len / channels` exactly in the stereo case), with
`mid[i] = (samples[2i] + samples[2i+1]) / 2` and
`side[i] = (samples[2i] - samples[2i+1]) / 2`; non-stereo sources get the
same pairwise formula rather than the single channel. -/
theorem c3_mid_side_amended (samples : List ℚ) (i : Nat) (l r : ℚ)
    (hl : samples[2 * i]? = some l) (hr : samples[2 * i + 1]? = some r) :
    (get_mid_and_side_samples samples).1.length = samples.length / 2 ∧
    (get_mid_and_side_samples samples).2.length = samples.length / 2 ∧
    (get_mid_and_side_samples samples).1[i]? = some ((l + r) / 2) ∧
    (get_mid_and_side_samples samples).2[i]? = some ((l - r) / 2) := by
  have hL := deinterleaveL_getElem samples i
  have hR := deinterleaveR_getElem samples i
  rw [hl] at hL
  rw [hr] at hR
  refine ⟨?_, ?_, ?_, ?_⟩ <;>
    simp [get_mid_and_side_samples, List.length_zipWith, deinterleaveL_length,
      deinterleaveR_length, List.getElem?_zipWith', hL, hR]
  all_goals omega

/-- C3 witness: on the concrete interleaved samples `[1, 2, 3, 4]`, frame 1
gives mid `(3 + 4) / 2` and side `(3 - 4) / 2`, and both vectors have
length 2. -/
theorem c3_mid_side_witness :
    (([1, 2, 3, 4] : List ℚ)[2 * 1]? = some 3) ∧
    (([1, 2, 3, 4] : List ℚ)[2 * 1 + 1]? = some 4) ∧
    ((get_mid_and_side_samples [1, 2, 3, 4]).1.length = ([1, 2, 3, 4] : List ℚ).length / 2 ∧
      (get_mid_and_side_samples [1, 2, 3, 4]).2.length = ([1, 2, 3, 4] : List ℚ).length / 2 ∧
      (get_mid_and_side_samples [1, 2, 3, 4]).1[1]? = some ((3 + 4) / 2) ∧
      (get_mid_and_side_samples [1, 2, 3, 4]).2[1]? = some ((3 - 4) / 2)) :=
  ⟨by decide, by decide, c3_mid_side_amended [1, 2, 3, 4] 1 3 4 (by decide) (by decide)⟩

/-- C4: the claim that the loudness meter is fed exactly the span
`[last_pos, pos)` fails: for a stereo file of 100000 samples, at position
message 20480 (previous message 16384) the code feeds `[4096, 20480)`, the
fixed 16384-sample lookback, not `[16384, 20480)`. -/
theorem c4_lufs_feed_counterexample :
    lufsFeedSpan 20480 2 100000 = some (4096, 20480) ∧
    ((4096, 20480) : Nat × Nat) ≠ (16384, 20480) := by decide

/-- C4 (amended): on each position update the loudness meter is fed the
fixed trailing window `[pos - 16384, pos)` of interleaved samples (with
`pos` rounded down to a channel multiple), whenever that window starts past
0 and lies within the sample vector; consecutive updates 4096 samples apart
therefore overlap, re-feeding samples, rather than feeding disjoint
`[last_pos, pos)` spans. -/
theorem c4_lufs_feed_amended (pos channels samplesLen : Nat)
    (hdvd : channels ∣ pos) (hd2 : channels ∣ 4096) (h16 : 16384 < pos)
    (hlen : pos + 4096 ≤ samplesLen) :
    lufsFeedSpan pos channels samplesLen = some (pos - 16384, pos) ∧
    lufsFeedSpan (pos + 4096) channels samplesLen
      = some (pos + 4096 - 16384, pos + 4096) ∧
    pos + 4096 - 16384 < pos := by
  have hC : 0 < channels := Nat.pos_of_dvd_of_pos hd2 (by norm_num)
  have e1 : pos / channels * channels = pos := Nat.div_mul_cancel hdvd
  have e2 : (pos + 4096) / channels * channels = pos + 4096 :=
    Nat.div_mul_cancel (Nat.dvd_add hdvd hd2)
  refine ⟨?_, ?_, by omega⟩ <;>
    · simp only [lufsFeedSpan, e1, e2]
      rw [if_pos (by omega), if_pos (by omega)]

/-- C4 witness: at position 20480 of a stereo file of 100000 samples the fed
span is `[4096, 20480)`, at the next update it is `[8192, 24576)`, and the
two overlap. -/
theorem c4_lufs_feed_witness :
    (2 ∣ 20480) ∧ (2 ∣ 4096) ∧ 16384 < 20480 ∧ 20480 + 4096 ≤ 100000 ∧
    (lufsFeedSpan 20480 2 100000 = some (20480 - 16384, 20480) ∧
      lufsFeedSpan (20480 + 4096) 2 100000
        = some (20480 + 4096 - 16384, 20480 + 4096) ∧
      20480 + 4096 - 16384 < 20480) :=
  ⟨by decide, by decide, by decide, by decide,
    c4_lufs_feed_amended 20480 2 100000 (by decide) (by decide) (by decide) (by decide)⟩

/-- When the loudness feed takes a slice, its bounds are ordered and within
the interleaved sample vector. -/
lemma lufsFeedSpan_bounds (pos channels samplesLen a b : Nat)
    (h : lufsFeedSpan pos channels samplesLen = some (a, b)) :
    a ≤ b ∧ b ≤ samplesLen := by
  simp only [lufsFeedSpan] at h
  split_ifs at h with h1 h2
  simp only [Option.some.injEq, Prod.mk.injEq] at h
  obtain ⟨rfl, rfl⟩ := h
  exact ⟨by omega, h2.1⟩

/-- C7: every slice of the mid, side and interleaved sample vectors taken by
`analyze_audio_file_samples` — for any received position message, including
stale positions past the current vectors — satisfies
`start ≤ stop ≤ length`, so all slicing is in bounds. -/
theorem c7_stale_position_safety (pos channels midLen sideLen samplesLen : Nat)
    (hC : 1 ≤ channels) :
    ∀ sl ∈ analyzeSlices pos channels midLen sideLen samplesLen,
      sl.1 ≤ sl.2.1 ∧ sl.2.1 ≤ sl.2.2 := by
  intro sl hsl
  simp only [analyzeSlices, List.mem_append] at hsl
  rcases hsl with h | h
  · split_ifs at h with hne hmid hside hside2
    · rcases List.mem_append.mp h with h | h
      · obtain rfl := List.mem_singleton.mp h
        exact ⟨Nat.sub_le _ _, hmid.1⟩
      · obtain rfl := List.mem_singleton.mp h
        exact ⟨Nat.sub_le _ _, hside.1⟩
    · rcases List.mem_append.mp h with h | h
      · obtain rfl := List.mem_singleton.mp h
        exact ⟨Nat.sub_le _ _, hmid.1⟩
      · exact absurd h (List.not_mem_nil sl)
    · rcases List.mem_append.mp h with h | h
      · exact absurd h (List.not_mem_nil sl)
      · obtain rfl := List.mem_singleton.mp h
        exact ⟨Nat.sub_le _ _, hside2.1⟩
    · rcases List.mem_append.mp h with h | h
      · exact absurd h (List.not_mem_nil sl)
      · exact absurd h (List.not_mem_nil sl)
    · exact absurd h (List.not_mem_nil sl)
  · rcases hspan : lufsFeedSpan pos channels samplesLen with _ | ⟨a, b⟩
    · rw [hspan] at h
      exact absurd h (List.not_mem_nil sl)
    · rw [hspan] at h
      change sl ∈ [(a, b, samplesLen)] at h
      obtain rfl := List.mem_singleton.mp h
      exact lufsFeedSpan_bounds pos channels samplesLen a b hspan

/-- C7 witness: position message 1000000 against a stereo file with mid and
side vectors of 600000 frames and 1200000 interleaved samples yields only
in-bounds slices. -/
theorem c7_stale_position_safety_witness :
    1 ≤ 2 ∧ ∀ sl ∈ analyzeSlices 1000000 2 600000 600000 1200000,
      sl.1 ≤ sl.2.1 ∧ sl.2.1 ≤ sl.2.2 :=
  ⟨by decide, c7_stale_position_safety 1000000 2 600000 600000 1200000 (by decide)⟩

/-- The log-frequency axis of the remap spans exactly 3 decades:
`log10 20000 - log10 20 = 3`. -/
lemma logb_range_eq : Real.logb 10 20000 - Real.logb 10 20 = 3 := by
  have h1 : (20000 : ℝ) = 20 * 1000 := by norm_num
  have h2 : (1000 : ℝ) = 10 ^ (3 : ℕ) := by norm_num
  rw [h1, Real.logb_mul (by norm_num) (by norm_num), h2, Real.logb_pow,
    Real.logb_self_eq_one (by norm_num)]
  push_cast
  ring

/-- C5: `transform_to_log_scale` maps each point by the spec formula
`x = (log10 f - log10 20) / (log10 20000 - log10 20) * 100`, sends 20 Hz to
chart x 0 and 20000 Hz to the chart width 100, and is monotone in the input
frequency. -/
theorem c5_log_remap (data : List (ℝ × ℝ)) (f1 f2 : ℝ)
    (h1 : 0 < f1) (h12 : f1 ≤ f2) :
    transform_to_log_scale data = data.map (fun p => (chartX p.1, p.2)) ∧
    chartX 20 = 0 ∧
    chartX 20000 = 100 ∧
    chartX f1 ≤ chartX f2 ∧
    chartX f1 = (Real.logb 10 f1 - Real.logb 10 20)
        / (Real.logb 10 20000 - Real.logb 10 20) * 100 := by
  refine ⟨rfl, ?_, ?_, ?_, rfl⟩
  · simp [chartX]
  · simp only [chartX]
    rw [logb_range_eq]
    norm_num
  · simp only [chartX]
    rw [logb_range_eq]
    have hlog : Real.logb 10 f1 ≤ Real.logb 10 f2 :=
      Real.logb_le_logb_of_le (by norm_num) h1 h12
    linarith

/-- C5 witness: 20 Hz is mapped no further right than 200 Hz. -/
theorem c5_log_remap_witness : (0 : ℝ) < 20 ∧ (20 : ℝ) ≤ 200 ∧ chartX 20 ≤ chartX 200 :=
  ⟨by norm_num, by norm_num,
    (c5_log_remap [] 20 200 (by norm_num) (by norm_num)).2.2.2.1⟩

/-- Pushing the last `capacity` elements of `l` followed by `l2` through the
trailing-window drop is the same as taking the trailing window of `l ++ l2`
directly. -/
lemma drop_last_append (capacity : Nat) (l l2 : List ℚ) :
    (l.drop (l.length - capacity) ++ l2).drop
        ((l.drop (l.length - capacity) ++ l2).length - capacity)
      = (l ++ l2).drop ((l ++ l2).length - capacity) := by
  rw [← List.drop_append_of_le_length (by omega : l.length - capacity ≤ l.length),
    List.drop_drop]
  congr 1
  simp only [List.length_append, List.length_drop]
  omega

/-- Folding `ringPush` over the incoming samples keeps exactly the last
`capacity` elements of the old contents followed by the new samples. -/
lemma ringPush_foldl (capacity : Nat) (xs : List ℚ) :
    ∀ d : List ℚ, d.length ≤ capacity →
      xs.foldl (ringPush capacity) d = (d ++ xs).drop ((d ++ xs).length - capacity) := by
  induction xs with
  | nil =>
    intro d hd
    simp only [List.foldl_nil, List.append_nil]
    rw [Nat.sub_eq_zero_of_le hd, List.drop_zero]
  | cons x xs ih =>
    intro d hd
    simp only [List.foldl_cons]
    rw [ih (ringPush capacity d x)
      (by simp only [ringPush, List.length_drop]; omega)]
    have hstep : ringPush capacity d x
        = (d ++ [x]).drop ((d ++ [x]).length - capacity) := rfl
    rw [hstep, drop_last_append]
    rw [show (d ++ [x]) ++ xs = d ++ x :: xs by simp]

/-- C6: enqueuing more than `capacity` mono samples through the
input-stream callback leaves exactly the most recent `capacity` samples
retrievable by the snapshot copy, in their original relative order; the
oldest samples are discarded. -/
theorem c6_capture_ring_bound (capacity : Nat) (d xs : List ℚ)
    (hd : d.length ≤ capacity) (hN : capacity < xs.length) :
    (inputStreamCallback true ⟨capacity, d⟩ xs).to_vec
      = xs.drop (xs.length - capacity) ∧
    (inputStreamCallback true ⟨capacity, d⟩ xs).to_vec.length = capacity := by
  have hmain : (inputStreamCallback true ⟨capacity, d⟩ xs).to_vec
      = xs.drop (xs.length - capacity) := by
    show xs.foldl (ringPush capacity) d = _
    rw [ringPush_foldl capacity xs d hd]
    rw [show (d ++ xs).length - capacity = d.length + (xs.length - capacity) from by
      simp only [List.length_append]; omega]
    exact List.drop_append _
  refine ⟨hmain, ?_⟩
  rw [hmain, List.length_drop]
  omega

/-- C6 witness: a ring of capacity 2 fed the three samples 1, 2, 3 retains
exactly the last two, in order. -/
theorem c6_capture_ring_bound_witness :
    ([] : List ℚ).length ≤ 2 ∧ 2 < ([1, 2, 3] : List ℚ).length ∧
    ((inputStreamCallback true ⟨2, []⟩ [1, 2, 3]).to_vec
        = ([1, 2, 3] : List ℚ).drop (([1, 2, 3] : List ℚ).length - 2) ∧
      (inputStreamCallback true ⟨2, []⟩ [1, 2, 3]).to_vec.length = 2) :=
  ⟨by decide, by decide, c6_capture_ring_bound 2 [] [1, 2, 3] (by decide) (by decide)⟩

/-- Removing the skipped on-track frame decode errors from a packet trace
does not change the result of the decode loop. -/
lemma decodeLoop_skip_filter (steps : List DecodeStep) :
    ∀ acc : List ℚ,
      decodeLoop acc steps
        = decodeLoop acc (steps.filter (fun e => !isSkippedFrameError e)) := by
  induction steps with
  | nil => intro acc; rfl
  | cons e rest ih =>
    intro acc
    cases e with
    | ioError => simp [decodeLoop, List.filter_cons, isSkippedFrameError]
    | formatError => simp [decodeLoop, List.filter_cons, isSkippedFrameError]
    | packet onTrack outcome =>
      cases onTrack with
      | false => simp [decodeLoop, List.filter_cons, isSkippedFrameError, ih]
      | true =>
        cases outcome with
        | decoded xs => simp [decodeLoop, List.filter_cons, isSkippedFrameError, ih]
        | decodeError => simp [decodeLoop, List.filter_cons, isSkippedFrameError, ih]
        | codecError => simp [decodeLoop, List.filter_cons, isSkippedFrameError]

/-- C9: the claim that unrecoverable mid-decode IO errors abort the decode
and surface the error fails: a trace that decodes one packet and then hits
an `Error::IoError` from the format reader completes successfully with the
truncated samples instead of surfacing an error. -/
theorem c9_decode_error_contract_counterexample :
    decodeLoop []
        [DecodeStep.packet true (DecodeOutcome.decoded [1]), DecodeStep.ioError]
      = Except.ok [1] ∧
    Except.ok [1] ≠ (Except.error () : Except Unit (List ℚ)) :=
  ⟨rfl, fun h => Except.noConfusion h⟩

/-- C9 (amended): individual on-track frame decode errors are skipped (a
trace with them removed decodes identically); an `Error::IoError` from the
format reader is treated as end of stream and completes the decode
successfully with the samples so far; any other format-reader error or any
non-`DecodeError` decoder error aborts with an error; and when the decode
triggered by `SelectFile` fails, an error message is sent and the loaded
file and sink are left unchanged. -/
theorem c9_decode_error_contract_amended (acc : List ℚ) (steps : List DecodeStep)
    (st : PlayerSt) :
    decodeLoop acc (DecodeStep.packet true DecodeOutcome.decodeError :: steps)
      = decodeLoop acc steps ∧
    decodeLoop acc steps
      = decodeLoop acc (steps.filter (fun e => !isSkippedFrameError e)) ∧
    decodeLoop acc (DecodeStep.ioError :: steps) = Except.ok acc ∧
    decodeLoop acc (DecodeStep.formatError :: steps) = Except.error () ∧
    decodeLoop acc (DecodeStep.packet true DecodeOutcome.codecError :: steps)
      = Except.error () ∧
    selectFileStep (Except.error ()) st = (st, true, []) :=
  ⟨by simp [decodeLoop], decodeLoop_skip_filter steps acc, by simp [decodeLoop],
    by simp [decodeLoop], by simp [decodeLoop], rfl⟩

end Soundscope
